import Mathlib

/-!
Verification development for the grok JPEG 2000 decoder core.

The definitions below are shallow embeddings of the C++ sources:
* `PacketLengthMarkers` (PLT/PLM packet-length marker stores) from
  `src/lib/jp2/cache/PacketLengthMarkers.cpp`;
* `TileLengthMarkers` (TLM tile-length marker store) from the same file;
* the QCD/QCC quantization marker readers, the tile-header validation
  block, and the CBD reader from `CodeStreamDecompress`;
* the zero-decomposition fast path of `WaveletInverse::run`.

Machine integers are modelled as `Nat` with explicit `% 2^w` reductions
at the points where the C code can overflow or truncates by a cast.
Byte buffers are `List Nat`; a read of byte `i` is `getD i 0 % 256`,
matching the `uint8_t` accesses of the source (the callers always hand
the readers a buffer of exactly `header_size` bytes).
-/

namespace Grk

/-- Read byte `i` of a buffer (a `uint8_t` access). -/
def byteAt (data : List Nat) (i : Nat) : Nat :=
  data.getD i 0 % 256

/-- `grk_read`: big-endian read of `n` bytes starting at offset `off`. -/
def readBE (data : List Nat) (off n : Nat) : Nat :=
  (List.range n).foldl (fun a i => a * 256 + byteAt data (off + i)) 0

/-! ## PacketLengthMarkers (PLT / PLM)

State of `PacketLengthMarkers`: `markers_` is a `std::map` from marker
index to the vector of decoded packet lengths, modelled as an
association list sorted by key; `markerIndex_`, `sequential_` and the
base-128 accumulator `packet_len_` are carried verbatim.  `currMarker_`
is the map entry at `markerIndex_`, so it needs no separate field. -/

structure PLState where
  markers : List (Nat × List Nat)
  markerIndex : Nat
  sequential : Bool
  packet_len : Nat
deriving DecidableEq, Repr

/-- The freshly constructed `PacketLengthMarkers` state. -/
def PLState.init : PLState := ⟨[], 0, false, 0⟩

/-- `markers_->find(k)` followed by insertion of an empty vector when the
key is absent (`markers_->operator[](k) = ...` on a `std::map`). -/
def plFindInsert (k : Nat) : List (Nat × List Nat) → List (Nat × List Nat)
  | [] => [(k, [])]
  | (k', v) :: rest =>
    if k = k' then (k', v) :: rest
    else if k < k' then (k, []) :: (k', v) :: rest
    else (k', v) :: plFindInsert k rest

/-- `currMarker_->push_back(len)`: append a packet length to the vector
stored at key `k`. -/
def plPushLen (k len : Nat) : List (Nat × List Nat) → List (Nat × List Nat)
  | [] => []
  | (k', v) :: rest =>
    if k = k' then (k', v ++ [len]) :: rest
    else (k', v) :: plPushLen k len rest

/-- `PacketLengthMarkers::readInit`.  `isPLM` is
`type == GRK_PL_MARKER_PLM`.  Returns `none` on the two error paths
(256th PLM marker; broken sequential assumption past 256 markers). -/
def readInit (index : Nat) (isPLM : Bool) (s : PLState) : Option PLState :=
  if s.markers.length = 255 ∧ isPLM then none
  else if s.markers.isEmpty then
    some { markers := plFindInsert index s.markers
           markerIndex := index
           sequential := index == 0
           packet_len := 0 }
  else if s.sequential then
    if s.markers.length % 256 = index then
      -- still sequential: the actual marker index is the marker count
      some { markers := plFindInsert s.markers.length s.markers
             markerIndex := s.markers.length
             sequential := true
             packet_len := 0 }
    else if 256 < s.markers.length then none
    else
      some { markers := plFindInsert index s.markers
             markerIndex := index
             sequential := false
             packet_len := 0 }
  else
    some { markers := plFindInsert index s.markers
           markerIndex := index
           sequential := false
           packet_len := 0 }

/-- `PacketLengthMarkers::readNext`: consume one `Iplt`/`Iplm` byte of a
base-128 encoded packet length.  `packet_len_` is a `uint32_t`, hence
the `% 2^32` on the shift. -/
def readNext (b : Nat) (s : PLState) : PLState :=
  if b % 256 ≥ 128 then
    { s with packet_len := ((s.packet_len ||| (b % 128)) <<< 7) % 2 ^ 32 }
  else
    { s with
      markers := plPushLen s.markerIndex (s.packet_len ||| (b % 128)) s.markers
      packet_len := 0 }

/-- Feed a run of packet-length bytes through `readNext`. -/
def foldRead (bytes : List Nat) (s : PLState) : PLState :=
  bytes.foldl (fun s b => readNext b s) s

/-- `PacketLengthMarkers::readPLT`.  `headerData` holds the
`header_size` bytes of the marker segment body. -/
def readPLT (headerData : List Nat) (header_size : Nat) (s : PLState) :
    Option PLState :=
  if header_size < 1 then none
  else
    match readInit (byteAt headerData 0) false s with
    | none => none
    | some s1 =>
      if (foldRead ((headerData.drop 1).take (header_size - 1)) s1).packet_len ≠ 0
      then none
      else some (foldRead ((headerData.drop 1).take (header_size - 1)) s1)

/-- The `while(header_size > 0)` loop of `PacketLengthMarkers::readPLM`:
each iteration consumes one `Nplm` count byte and then `Nplm` bytes of
packet-length data, and checks the base-128 residual. -/
def readPLMGroups (data : List Nat) (header_size : Nat) (s : PLState) :
    Option PLState :=
  if header_size = 0 then some s
  else if header_size < 1 + byteAt data 0 then none
  else if (foldRead ((data.drop 1).take (byteAt data 0)) s).packet_len ≠ 0 then
    none
  else
    readPLMGroups (data.drop (1 + byteAt data 0))
      (header_size - (1 + byteAt data 0))
      (foldRead ((data.drop 1).take (byteAt data 0)) s)
termination_by header_size
decreasing_by
  exact Nat.sub_lt (Nat.pos_of_ne_zero (by assumption)) (by omega)

/-- `PacketLengthMarkers::readPLM`. -/
def readPLM (headerData : List Nat) (header_size : Nat) (s : PLState) :
    Option PLState :=
  if header_size < 1 then none
  else
    match readInit (byteAt headerData 0) true s with
    | none => none
    | some s => readPLMGroups (headerData.drop 1) (header_size - 1) s

/-- One base-128 encoded packet length: zero or more continuation
bytes (high bit set) followed by one terminating byte (high bit
clear). -/
def plGroupOk : List Nat → Bool
  | [] => false
  | [b] => decide (b % 256 < 128)
  | b :: rest => decide (128 ≤ b % 256) && plGroupOk rest

/-- The value decoded from one base-128 group, starting from the
accumulator `a` (mirrors the `readNext` arithmetic). -/
def plDecodeGroup : Nat → List Nat → Nat
  | a, [] => a
  | a, [b] => a ||| (b % 128)
  | a, b :: rest => plDecodeGroup (((a ||| (b % 128)) <<< 7) % 2 ^ 32) rest

/-- The byte layout of a PLM marker body after `Zplm`: for each
tile-part, one `Nplm` count byte followed by `Nplm` bytes of packet
lengths. -/
def plmBlockBytes (blocks : List (List (List Nat))) : List Nat :=
  (blocks.map (fun gs => gs.flatten.length :: gs.flatten)).flatten

/-! ## TileLengthMarkers (TLM)

State of `TileLengthMarkers`: `markers_` is a `std::map` from the TLM
marker index `Ztlm` to the vector of `TilePartLengthInfo` entries, again
an association list sorted by key.  The read-side iteration fields
(`markerIndex_`, `markerTilePartIndex_`, `curr_vec_`) play no part in
the claims and are omitted. -/

/-- One `(tileIndex, tilePartLength)` entry; `tileIndex` is a
`uint16_t` and `length` a `uint32_t`. -/
structure TilePartLengthInfo where
  tileIndex : Nat
  length : Nat
deriving DecidableEq, Repr

structure TLMState where
  markers : List (Nat × List TilePartLengthInfo)
  valid : Bool
  hasTileIndices : Bool
  tileCount : Nat
deriving DecidableEq, Repr

/-- The freshly constructed `TileLengthMarkers` state. -/
def TLMState.init : TLMState := ⟨[], false, false, 0⟩

-- TLM(2) + Ltlm(2) + Ztlm(1) + Stlm(1)
def tlm_marker_start_bytes : Nat := 6

/-- `TileLengthMarkers::push`: append an entry to the vector at key
`i_TLM`, creating the (sorted) map entry when absent. -/
def tlmPush (k : Nat) (info : TilePartLengthInfo) :
    List (Nat × List TilePartLengthInfo) → List (Nat × List TilePartLengthInfo)
  | [] => [(k, [info])]
  | (k', v) :: rest =>
    if k = k' then (k', v ++ [info]) :: rest
    else if k < k' then (k, [info]) :: (k', v) :: rest
    else (k', v) :: tlmPush k info rest

/-- The tile-part loop of `TileLengthMarkers::read`: entry `i` reads an
`L_iT`-byte tile index and a `bytesPer`-byte tile-part length at offset
`2 + i * (L_iT + bytesPer)` and pushes the resulting info record.  When
the stream carries no tile indices the running `tileCount_` (a
`uint16_t`) is used instead. -/
def tlmReadLoop (data : List Nat) (L_iT bytesPer i_TLM n : Nat)
    (s : TLMState) : TLMState :=
  (List.range n).foldl (fun s i =>
    let off := 2 + i * (L_iT + bytesPer)
    let Ttlm := readBE data off L_iT
    let Ptlm := readBE data (off + L_iT) bytesPer
    let info := if s.hasTileIndices then TilePartLengthInfo.mk (Ttlm % 65536) Ptlm
                else TilePartLengthInfo.mk (s.tileCount % 65536) Ptlm
    let s := if s.hasTileIndices then s else { s with tileCount := s.tileCount + 1 }
    { s with markers := tlmPush i_TLM info s.markers }) s

/-- The number of bytes per tile-part length selected by `L_LTP`
(`(L >> 6) & 1`): 4 for 32-bit lengths, 2 for 16-bit lengths. -/
def tlmBytesPer (L : Nat) : Nat :=
  if (L >>> 6) &&& 1 ≠ 0 then 4 else 2

/-- The tile-index byte count `L_iT` (`(L >> 4) & 3`). -/
def tlmLiT (L : Nat) : Nat :=
  (L >>> 4) &&& 3

/-- The tile-index sanity update of `TileLengthMarkers::read`: the
first marker fixes `hasTileIndices_`; mixing markers with and without
tile indices clears `valid_`. -/
def tlmMixState (L_iT : Nat) (s : TLMState) : TLMState :=
  if s.markers.isEmpty then { s with hasTileIndices := L_iT != 0 }
  else if (s.hasTileIndices && L_iT == 0) || (!s.hasTileIndices && L_iT != 0)
  then { s with valid := false }
  else s

/-- `TileLengthMarkers::read`.  `headerData` holds the `header_size`
bytes of the marker segment body (`Ztlm` onwards); `header_size - 2`
discounts `Ztlm` and `Stlm`, leaving the tile-part entries, and the
cast `(uint8_t)(header_size / quotient)` is the `% 256`.  (In the C
code the `tlmMixState` update happens just before the divisibility
check; when that check fails the caller aborts the whole parse, so
the dead partial write is folded into `none`.) -/
def TileLengthMarkers_read (headerData : List Nat) (header_size : Nat)
    (s : TLMState) : Option TLMState :=
  if header_size < tlm_marker_start_bytes then none
  -- (L & ~0x70) != 0, with L a uint8_t
  else if byteAt headerData 1 &&& 0x8F ≠ 0 then none
  else if (header_size - 2) % (tlmBytesPer (byteAt headerData 1) +
      tlmLiT (byteAt headerData 1)) ≠ 0 then none
  else
    some (tlmReadLoop headerData (tlmLiT (byteAt headerData 1))
      (tlmBytesPer (byteAt headerData 1)) (byteAt headerData 0)
      (((header_size - 2) / (tlmBytesPer (byteAt headerData 1) +
        tlmLiT (byteAt headerData 1))) % 256)
      (tlmMixState (tlmLiT (byteAt headerData 1)) s))

/-- Inner entry loop of `TileLengthMarkers::validate`: walk the entries
with the running `tileIndex` counter; `none` models the
`isValid = false` break-out. -/
def validateEntries : List TilePartLengthInfo → Nat → Option Nat
  | [], t => some t
  | e :: rest, t =>
    if e.tileIndex = t then validateEntries rest t
    else if e.tileIndex = t + 1 then validateEntries rest (t + 1)
    else none

/-- Outer map loop of `TileLengthMarkers::validate`. -/
def validateMarkers : List (Nat × List TilePartLengthInfo) → Nat → Option Nat
  | [], t => some t
  | (_, v) :: rest, t =>
    match validateEntries v t with
    | none => none
    | some t' => validateMarkers rest t'

/-- `TileLengthMarkers::validate(numTiles)`.  The final comparison
`tileIndex == numTiles - 1` is performed after integer promotion, hence
the comparison over `Int`. -/
def TileLengthMarkers_validate (s : TLMState) (numTiles : Nat) : Bool :=
  match validateMarkers s.markers 0 with
  | none => false
  | some t => decide ((t : Int) = (numTiles : Int) - 1)

/-! ## CodeStreamDecompress: quantization markers and tile-header checks -/

def J2K_CCP_QNTSTY_NOQNT : Nat := 0
def J2K_CCP_QNTSTY_SIQNT : Nat := 1
def J2K_CCP_QNTSTY_SEQNT : Nat := 2
-- GRK_J2K_MAXBANDS = 3 * GRK_J2K_MAXRLVLS - 2, with GRK_J2K_MAXRLVLS = 33
def GRK_J2K_MAXBANDS : Nat := 97

/-- One quantization step size: 5-bit exponent, 11-bit mantissa. -/
structure grk_stepsize where
  expn : Nat
  mant : Nat
deriving DecidableEq, Repr

instance : Inhabited grk_stepsize := ⟨⟨0, 0⟩⟩

/-- Per-component coding parameters (only the fields the quantization
markers and tile-header checks touch). -/
structure TileComponentCodingParams where
  qntsty : Nat
  numgbits : Nat
  numStepSizes : Nat
  stepsizes : List grk_stepsize
  numresolutions : Nat
  qmfbid : Nat
  quantizationMarkerSet : Bool
  fromQCC : Bool
  fromTileHeader : Bool
deriving DecidableEq, Repr

instance : Inhabited TileComponentCodingParams :=
  ⟨⟨0, 0, 0, [], 0, 0, false, false, false⟩⟩

/-- Per-tile coding parameters (quantization-related fields). -/
structure TileCodingParams where
  main_qcd_qntsty : Nat
  main_qcd_numStepSizes : Nat
  tccps : List TileComponentCodingParams
deriving DecidableEq, Repr

/-- The scoping decision of `read_SQcd_SQcc`: should the incoming
QCD/QCC marker be ignored because the component is already bound by a
binding of equal or higher precedence? -/
def sqccIgnore (tccp : TileComponentCodingParams)
    (fromQCC fromTileHeader : Bool) : Bool :=
  if tccp.quantizationMarkerSet then
    if !fromTileHeader then
      -- setMainQCC || (mainQCD && setMainQCD)
      (tccp.fromQCC && !tccp.fromTileHeader) ||
      ((!fromQCC && !fromTileHeader) && (!tccp.fromQCC && !tccp.fromTileHeader))
    else
      -- setTileHeaderQCC || (setTileHeaderQCD && !tileHeaderQCC)
      (tccp.fromQCC && tccp.fromTileHeader) ||
      ((!tccp.fromQCC && tccp.fromTileHeader) && !(fromQCC && fromTileHeader))
  else false

/-- The `Sqcx`-dependent step-size count of `read_SQcd_SQcc`; the two
casts `(uint8_t)(*header_size)` and `(uint8_t)((*header_size) / 2)`
are the `% 256` reductions. -/
def sqccNumStepSizes (qntsty hs : Nat) : Nat :=
  if qntsty = J2K_CCP_QNTSTY_SIQNT then 1
  else if qntsty = J2K_CCP_QNTSTY_NOQNT then hs % 256
  else (hs / 2) % 256

/-- The no-quantization step-size read loop: `SPqcx_i` is one byte,
top 5 bits the exponent, mantissa 0.  Writes are bounds-checked against
`GRK_J2K_MAXBANDS`. -/
def sqccReadStepsNoqnt (headerData : List Nat) (n : Nat)
    (ss : List grk_stepsize) : List grk_stepsize :=
  (List.range n).foldl (fun ss b =>
    if b < GRK_J2K_MAXBANDS then
      ss.set b ⟨byteAt headerData (1 + b) / 8, 0⟩
    else ss) ss

/-- The quantized step-size read loop: `SPqcx_i` is two bytes, top 5
bits the exponent, bottom 11 bits the mantissa. -/
def sqccReadStepsQnt (headerData : List Nat) (n : Nat)
    (ss : List grk_stepsize) : List grk_stepsize :=
  (List.range n).foldl (fun ss b =>
    if b < GRK_J2K_MAXBANDS then
      let tmp := readBE headerData (1 + 2 * b) 2
      ss.set b ⟨tmp / 2048, tmp % 2048⟩
    else ss) ss

/-- The scalar-derived (SIQNT) expansion: step sizes of bands
`1 .. GRK_J2K_MAXBANDS - 1` are derived from band 0. -/
def sqccDeriveSiqnt (ss : List grk_stepsize) : List grk_stepsize :=
  (List.range' 1 (GRK_J2K_MAXBANDS - 1)).foldl (fun ss b =>
    let s0 := ss.getD 0 default
    let bandDividedBy3 := (b - 1) / 3
    ss.set b ⟨if bandDividedBy3 < s0.expn then s0.expn - bandDividedBy3 else 0,
              s0.mant⟩) ss

/-- `CodeStreamDecompress::read_SQcd_SQcc`.  `fromTileHeader` is
`isDecodingTilePartHeader()`.  Returns the updated coding parameters
and the remaining `header_size`; `none` models the `return false`
error paths.  All writes through `tccp` are guarded by the scoping
decision `ignore`, so on the ignore path the parameters are returned
untouched (only `header_size` is consumed).  On the error paths the C
code may already have written some fields before failing; the
surrounding parser aborts the whole tile then, so those dead partial
writes are folded into `none`. -/
def read_SQcd_SQcc (fromQCC fromTileHeader : Bool) (comp_no : Nat)
    (headerData : List Nat) (header_size : Nat) (tcp : TileCodingParams) :
    Option (TileCodingParams × Nat) :=
  if header_size < 1 then none
  else
    let tmp := byteAt headerData 0
    let qntsty := tmp % 32
    let hs := header_size - 1
    if J2K_CCP_QNTSTY_SEQNT < qntsty then none
    else
      let tccp := tcp.tccps.getD comp_no default
      let mainQCD := !fromQCC && !fromTileHeader
      let ignore := sqccIgnore tccp fromQCC fromTileHeader
      let tccp1 :=
        if ignore then tccp
        else { tccp with
               quantizationMarkerSet := true
               fromQCC := fromQCC
               fromTileHeader := fromTileHeader
               qntsty := qntsty
               numgbits := tmp / 32
               numStepSizes := sqccNumStepSizes qntsty hs }
      let mainUpd := fun (t : TileCodingParams) =>
        if ignore then t
        else if mainQCD then
          { t with main_qcd_qntsty := qntsty
                   main_qcd_numStepSizes := tccp1.numStepSizes }
        else t
      if qntsty = J2K_CCP_QNTSTY_NOQNT then
        if hs < tccp1.numStepSizes then none
        else
          let tccp2 :=
            if ignore then tccp1
            else { tccp1 with
                   stepsizes := sqccReadStepsNoqnt headerData tccp1.numStepSizes
                     tccp1.stepsizes }
          let tccp3 :=
            if !ignore && tccp2.qntsty == J2K_CCP_QNTSTY_SIQNT then
              { tccp2 with stepsizes := sqccDeriveSiqnt tccp2.stepsizes }
            else tccp2
          let tcp2 :=
            if ignore then tcp
            else { tcp with tccps := tcp.tccps.set comp_no tccp3 }
          some (mainUpd tcp2, hs - tccp1.numStepSizes)
      else
        if hs < 2 * tccp1.numStepSizes then none
        else
          let tccp2 :=
            if ignore then tccp1
            else { tccp1 with
                   stepsizes := sqccReadStepsQnt headerData tccp1.numStepSizes
                     tccp1.stepsizes }
          let tccp3 :=
            if !ignore && tccp2.qntsty == J2K_CCP_QNTSTY_SIQNT then
              { tccp2 with stepsizes := sqccDeriveSiqnt tccp2.stepsizes }
            else tccp2
          let tcp3 :=
            if ignore then tcp
            else { tcp with tccps := tcp.tccps.set comp_no tccp3 }
          some (mainUpd tcp3, hs - 2 * tccp1.numStepSizes)

/-- The propagation loop of `read_qcd`: apply component 0's
quantization parameters to components `1 .. numcomps - 1`, respecting
the QCD/QCC scoping rules.  The `memcpy` copies the whole
`stepsizes` array but neither the step-size count nor the origin
flags. -/
def qcdPropagateStep (src : TileComponentCodingParams)
    (l : List TileComponentCodingParams) (i : Nat) :
    List TileComponentCodingParams :=
  if (l.getD i default).fromQCC &&
     (!src.fromTileHeader || (l.getD i default).fromTileHeader) then l
  else l.set i { l.getD i default with
                 qntsty := src.qntsty
                 numgbits := src.numgbits
                 stepsizes := src.stepsizes }

def qcdPropagate (src : TileComponentCodingParams)
    (tccps : List TileComponentCodingParams) (numcomps : Nat) :
    List TileComponentCodingParams :=
  (List.range' 1 (numcomps - 1)).foldl (qcdPropagateStep src) tccps

/-- The pointwise effect of the `read_qcd` propagation loop on the
component record at one index. -/
def qcdPointStep (src x : TileComponentCodingParams) :
    TileComponentCodingParams :=
  if x.fromQCC && (!src.fromTileHeader || x.fromTileHeader) then x
  else { x with
         qntsty := src.qntsty
         numgbits := src.numgbits
         stepsizes := src.stepsizes }

/-- `CodeStreamDecompress::read_qcd`: read the `SQcd` element for
component 0, require the whole segment to be consumed, then propagate
to the remaining components.  `fromTileHeader` is
`isDecodingTilePartHeader()` (false while the main header is parsed). -/
def read_qcd (fromTileHeader : Bool) (headerData : List Nat)
    (header_size : Nat) (numcomps : Nat) (tcp : TileCodingParams) :
    Option TileCodingParams :=
  match read_SQcd_SQcc false fromTileHeader 0 headerData header_size tcp with
  | none => none
  | some (tcp1, hs) =>
    if hs ≠ 0 then none
    else
      let src := tcp1.tccps.getD 0 default
      some { tcp1 with tccps := qcdPropagate src tcp1.tccps numcomps }

/-! ## parseTileHeaderMarkers: post-header validation block

The validation block that `CodeStreamDecompress::parseTileHeaderMarkers`
runs after the tile-part marker loop, before a tile may be reported as
decodable: the lossy-quantization check, the main-QCD step-size sanity
check and the tile-QCD step-size sanity check.  Returns `false` exactly
on the `return false` error paths of the block. -/

/-- One iteration of the main-QCD maximum-decomposition loop: skip
components with no resolutions and components whose quantization scope
is main-QCC or tile QCD/QCC; the cast
`(uint8_t)(tccp->numresolutions - 1)` is the `% 256`. -/
def mainQcdMaxStep (tcp : TileCodingParams) (maxD k : Nat) : Nat :=
  if (tcp.tccps.getD k default).numresolutions = 0 then maxD
  else if (tcp.tccps.getD k default).fromQCC ||
          (tcp.tccps.getD k default).fromTileHeader then maxD
  else max maxD (((tcp.tccps.getD k default).numresolutions - 1) % 256)

/-- The main-QCD maximum decomposition count of the step-size sanity
check. -/
def mainQcdMaxDecompositions (tcp : TileCodingParams) (numComps : Nat) : Nat :=
  (List.range numComps).foldl (mainQcdMaxStep tcp) 0

/-- One iteration of the tile-QCD maximum-decomposition loop: as the
main-QCD one, but skipping only components under tile-QCC scope. -/
def tileQcdMaxStep (tcp : TileCodingParams) (maxD k : Nat) : Nat :=
  if (tcp.tccps.getD k default).numresolutions = 0 then maxD
  else if (tcp.tccps.getD k default).fromQCC &&
          (tcp.tccps.getD k default).fromTileHeader then maxD
  else max maxD (((tcp.tccps.getD k default).numresolutions - 1) % 256)

/-- The tile-QCD maximum decomposition count. -/
def tileQcdMaxDecompositions (tcp : TileCodingParams) (numComps : Nat) : Nat :=
  (List.range numComps).foldl (tileQcdMaxStep tcp) 0

/-- The first component bound by a tile-header QCD marker
(`fromTileHeader && !fromQCC`), if any. -/
def tileQcdComponent (tcp : TileCodingParams) (numComps : Nat) :
    Option TileComponentCodingParams :=
  ((List.range numComps).map (fun k => tcp.tccps.getD k default)).find?
    (fun tccp => tccp.fromTileHeader && !tccp.fromQCC)

/-- The "irreversible path without quantization" test of the
per-component loop: `qmfbid == 0 && qntsty == NOQNT`. -/
def lossyNoQuant (tcp : TileCodingParams) (k : Nat) : Bool :=
  (tcp.tccps.getD k default).qmfbid == 0 &&
  (tcp.tccps.getD k default).qntsty == J2K_CCP_QNTSTY_NOQNT

/-- The post-header validation of `parseTileHeaderMarkers` ("ensure
lossy wavelet has quantization set" and the QCD step-size sanity
checks).  A tile is reported decodable only if this returns `true`. -/
def parseTileHeaderValidation (tcp : TileCodingParams) (numComps : Nat) : Bool :=
  if (List.range numComps).any (lossyNoQuant tcp) then false
  else if tcp.main_qcd_qntsty ≠ J2K_CCP_QNTSTY_SIQNT then
    if tcp.main_qcd_numStepSizes < 3 * mainQcdMaxDecompositions tcp numComps + 1
    then false
    else
      match tileQcdComponent tcp numComps with
      | none => true
      | some qcd_comp =>
        if qcd_comp.qntsty ≠ J2K_CCP_QNTSTY_SIQNT then
          if qcd_comp.numStepSizes <
              3 * tileQcdMaxDecompositions tcp numComps + 1 then false
          else true
        else true
  else true

/-- The claim C3 predicate for components in main-QCD scope: neither
`fromQCC` nor `fromTileHeader` is set. -/
def mainQcdScopePred (tcp : TileCodingParams) (k : Nat) : Bool :=
  !(tcp.tccps.getD k default).fromQCC &&
  !(tcp.tccps.getD k default).fromTileHeader

/-- The claim C3 reading of the main-QCD maximum decomposition count:
the maximum of `numresolutions - 1` over exactly the components whose
quantization scope is main-QCD; components bound by QCC or tile-header
markers are excluded. -/
def mainQcdScopeMaxDecompositions (tcp : TileCodingParams)
    (numComps : Nat) : Nat :=
  ((List.range numComps).filter (mainQcdScopePred tcp)).foldl
    (fun m k => max m ((tcp.tccps.getD k default).numresolutions - 1)) 0

/-! ## CodeStreamDecompress::read_cbd -/

/-- An image component: signedness and bit precision (other fields are
not touched by the CBD reader). -/
structure GrkComponent where
  sgnd : Nat
  prec : Nat
deriving DecidableEq, Repr

instance : Inhabited GrkComponent := ⟨⟨0, 0⟩⟩

structure GrkImage where
  numcomps : Nat
  comps : List GrkComponent
deriving DecidableEq, Repr

/-- `CodeStreamDecompress::read_cbd`: read `Ncbd` and one
component-definition byte per component; bit 7 is the signedness and
the low 7 bits plus one give the bit precision. -/
def read_cbd (headerData : List Nat) (header_size : Nat) (image : GrkImage) :
    Option GrkImage :=
  if header_size < 2 ∨ header_size - 2 ≠ image.numcomps then none
  else
    let numComps := readBE headerData 0 2
    if numComps ≠ image.numcomps then none
    else
      some { image with comps :=
        (List.range image.numcomps).foldl (fun cs i =>
          let comp_def := byteAt headerData (2 + i)
          cs.set i ⟨(comp_def / 128) &&& 1, (comp_def % 128) + 1⟩) image.comps }

/-! ## WaveletInverse::run

The early-return fast path and the level loop are embedded from the
source.  The per-line kernels (`interleave_h`/`interleave_v`,
`decode_line`, `dwt_utils::max_resolution`) are not part of the
repository slice, so they are modelled from the spec (§4.9: reversible
5/3 integer lifting, horizontal pass over rows then vertical pass over
columns, symmetric boundary extension).  The thread partitioning of the
source covers each row/column exactly once with disjoint outputs, so
the passes are modelled as sequential folds over rows and columns. -/

structure grk_tcd_resolution where
  x0 : Nat
  y0 : Nat
  x1 : Nat
  y1 : Nat
deriving DecidableEq, Repr

instance : Inhabited grk_tcd_resolution := ⟨⟨0, 0, 0, 0⟩⟩

/-- The tile-component data the inverse DWT touches: resolution
windows and the coefficient buffer (row-major, stride `x1 - x0`). -/
structure grk_tcd_tilecomp where
  numresolutions : Nat
  resolutions : List grk_tcd_resolution
  x0 : Nat
  x1 : Nat
  buf : List Int
deriving DecidableEq, Repr

/-- Modelled from the spec: `dwt_utils::max_resolution`, the largest
dimension among the first `numres` resolution windows (it only sizes
the scratch line buffer). -/
def max_resolution (rs : List grk_tcd_resolution) (numres : Nat) : Nat :=
  (rs.take numres).foldl (fun m r => max m (max (r.x1 - r.x0) (r.y1 - r.y0))) 0

/-- Modelled from the spec: symmetric boundary extension of a line. -/
def mirrorGet (l : List Int) (i : Int) : Int :=
  if l.isEmpty then 0
  else
    let n := l.length
    let j := if i < 0 then (-i).toNat else i.toNat
    let j := if j < n then j else 2 * n - 2 - j
    l.getD j 0

/-- Modelled from the spec: `interleave` plus `decode_line` for the
reversible 5/3 integer lifting on one line.  `s` is the low-pass half,
`d` the high-pass half, `cas` the lifting phase (`x0 & 1`). -/
def dwt53DecodeLine (s d : List Int) (cas : Nat) : List Int :=
  let even := (List.range s.length).map (fun i =>
    s.getD i 0 - Int.fdiv (mirrorGet d ((i : Int) - 1) + mirrorGet d (i : Int) + 2) 4)
  let odd := (List.range d.length).map (fun i =>
    d.getD i 0 + Int.fdiv (mirrorGet even (i : Int) + mirrorGet even ((i : Int) + 1)) 2)
  (List.range (s.length + d.length)).map (fun k =>
    if cas = 0 then (if k % 2 = 0 then even.getD (k / 2) 0 else odd.getD (k / 2) 0)
    else (if k % 2 = 0 then odd.getD (k / 2) 0 else even.getD (k / 2) 0))

/-- Modelled from the spec: the horizontal pass of one decomposition
level, lifting each of the `rh` rows in place. -/
def horizontalPass (stride rw rh s_n cas : Nat) (buf : List Int) : List Int :=
  (List.range rh).foldl (fun b m =>
    let row := (List.range rw).map (fun j => b.getD (m * stride + j) 0)
    let out := dwt53DecodeLine (row.take s_n) (row.drop s_n) cas
    (List.range rw).foldl (fun b j => b.set (m * stride + j) (out.getD j 0)) b) buf

/-- Modelled from the spec: the vertical pass of one decomposition
level, lifting each of the `rw` columns in place. -/
def verticalPass (stride rw rh s_n cas : Nat) (buf : List Int) : List Int :=
  (List.range rw).foldl (fun b m =>
    let col := (List.range rh).map (fun k => b.getD (k * stride + m) 0)
    let out := dwt53DecodeLine (col.take s_n) (col.drop s_n) cas
    (List.range rh).foldl (fun b k => b.set (k * stride + m) (out.getD k 0)) b) buf

/-- `WaveletInverse::run`: returns the success flag and the (possibly
transformed) tile component.  A tile component with a single resolution
(zero decomposition levels) returns `true` immediately, before the
coefficient buffer is touched. -/
def WaveletInverse_run (tilec : grk_tcd_tilecomp) (numres : Nat) :
    Bool × grk_tcd_tilecomp :=
  if tilec.numresolutions = 1 then (true, tilec)
  else
    let l_data_size := max_resolution tilec.resolutions numres * 4
    if l_data_size = 0 then (false, tilec)
    else
      let stride := tilec.x1 - tilec.x0
      let buf := (List.range numres).foldl (fun buf i =>
        let cur := tilec.resolutions.getD i default
        let next := tilec.resolutions.getD (i + 1) default
        let rw := cur.x1 - cur.x0
        let rh := cur.y1 - cur.y0
        let rw_next := next.x1 - next.x0
        let rh_next := next.y1 - next.y0
        let cas_row := cur.x0 % 2
        let cas_col := cur.y0 % 2
        let buf := if rh ≠ 0 then horizontalPass stride rw rh rw_next cas_row buf
                   else buf
        if rw ≠ 0 then verticalPass stride rw rh rh_next cas_col buf else buf)
        tilec.buf
      (true, { tilec with buf := buf })

/-! ## Helper lemmas -/

/-- The tile indices stored in a `TileLengthMarkers` object, in map
iteration order. -/
def tlmFlatIndices (s : TLMState) : List Nat :=
  (s.markers.flatMap Prod.snd).map TilePartLengthInfo.tileIndex

theorem validateEntries_some_iff (l : List TilePartLengthInfo) (t t' : Nat) :
    validateEntries l t = some t' ↔
      (List.Chain (fun a b => b = a ∨ b = a + 1) t
        (l.map TilePartLengthInfo.tileIndex) ∧
       t' = (l.map TilePartLengthInfo.tileIndex).getLastD t) := by
  induction l generalizing t with
  | nil => simp [validateEntries, eq_comm]
  | cons e rest ih =>
    rw [List.map_cons, List.chain_cons, List.getLastD_cons]
    by_cases h1 : e.tileIndex = t
    · rw [show validateEntries (e :: rest) t = validateEntries rest t by
        simp [validateEntries, h1], ih, h1]
      constructor
      · rintro ⟨hc, hl⟩
        exact ⟨⟨Or.inl rfl, hc⟩, hl⟩
      · rintro ⟨⟨_, hc⟩, hl⟩
        exact ⟨hc, hl⟩
    · by_cases h2 : e.tileIndex = t + 1
      · rw [show validateEntries (e :: rest) t = validateEntries rest (t + 1) by
          simp [validateEntries, h1, h2], ih, h2]
        constructor
        · rintro ⟨hc, hl⟩
          exact ⟨⟨Or.inr rfl, hc⟩, hl⟩
        · rintro ⟨⟨_, hc⟩, hl⟩
          exact ⟨hc, hl⟩
      · rw [show validateEntries (e :: rest) t = none by
          simp [validateEntries, h1, h2]]
        constructor
        · intro h
          exact absurd h (by simp)
        · rintro ⟨⟨hr, _⟩, _⟩
          rcases hr with h | h
          · exact absurd h h1
          · exact absurd h h2

theorem validateEntries_append (a b : List TilePartLengthInfo) (t : Nat) :
    validateEntries (a ++ b) t =
      match validateEntries a t with
      | none => none
      | some t' => validateEntries b t' := by
  induction a generalizing t with
  | nil => simp [validateEntries]
  | cons e rest ih =>
    by_cases h1 : e.tileIndex = t
    · simp [validateEntries, h1, ih]
    · by_cases h2 : e.tileIndex = t + 1
      · simp [validateEntries, h1, h2, ih]
      · simp [validateEntries, h1, h2]

theorem validateMarkers_eq_entries (ms : List (Nat × List TilePartLengthInfo))
    (t : Nat) : validateMarkers ms t = validateEntries (ms.flatMap Prod.snd) t := by
  induction ms generalizing t with
  | nil => simp [validateMarkers, validateEntries]
  | cons p rest ih =>
    obtain ⟨k, v⟩ := p
    rw [show (((k, v) :: rest).flatMap Prod.snd) = v ++ rest.flatMap Prod.snd by simp]
    rw [validateEntries_append]
    cases hv : validateEntries v t with
    | none => simp [validateMarkers, hv]
    | some t' => simp [validateMarkers, hv, ih]

theorem setRange_foldl_length {α : Type} (f : Nat → α) (n : Nat) (cs : List α) :
    ((List.range n).foldl (fun l i => l.set i (f i)) cs).length = cs.length := by
  induction n with
  | zero => rfl
  | succ n ih =>
    rw [List.range_succ, List.foldl_append, List.foldl_cons, List.foldl_nil,
      List.length_set, ih]

theorem setRange_foldl_getD {α : Type} (f : Nat → α) (n : Nat) (cs : List α)
    (j : Nat) (d : α) (hj : j < n) (hl : j < cs.length) :
    ((List.range n).foldl (fun l i => l.set i (f i)) cs).getD j d = f j := by
  induction n with
  | zero => omega
  | succ n ih =>
    rw [List.range_succ, List.foldl_append, List.foldl_cons, List.foldl_nil]
    rcases Nat.lt_or_ge j n with h | h
    · rw [List.getD_eq_getD_get?, List.get?_eq_getElem?,
        List.getElem?_set_ne (by omega), ← List.get?_eq_getElem?,
        ← List.getD_eq_getD_get?, ih h]
    · have hjn : j = n := by omega
      subst hjn
      rw [List.getD_eq_getD_get?, List.get?_eq_getElem?,
        List.getElem?_set_eq_of_lt _ (by rw [setRange_foldl_length]; omega)]
      rfl

/-! ## Claim theorems -/

/-- C1 counterexample: `TileLengthMarkers::validate` does not test that
the stored indices form exactly `{0, ..., n-1}`.  On an empty store,
`validate(1)` returns true although the claim demands false for an
empty entry list; and `validate(2)` returns true when the only stored
tile index is 1, although the claim demands false whenever index 0 is
absent. -/
theorem tlm_validate_counterexample :
    TileLengthMarkers_validate ⟨[], false, false, 0⟩ 1 = true ∧
    (TileLengthMarkers_validate ⟨[(0, [⟨1, 5⟩])], false, false, 0⟩ 2 = true ∧
     ∀ e ∈ [(⟨1, 5⟩ : TilePartLengthInfo)], e.tileIndex ≠ 0) := by
  decide

/-- C1 (amended): `validate(n)` returns true iff the stored tile
indices, scanned in map iteration order, form a chain from the counter
0 in which every index equals the running counter or the counter plus
one (so the first index is 0 or 1 and consecutive indices differ by at
most one), and the final counter — which is the last index, or 0 for an
empty store — equals `n - 1` computed over the integers.  In particular
an empty store is accepted exactly when `n = 1`, and index 0 may be
absent when the chain opens with index 1. -/
theorem tlm_validate_chain_characterization (s : TLMState) (numTiles : Nat) :
    TileLengthMarkers_validate s numTiles = true ↔
      (List.Chain (fun a b => b = a ∨ b = a + 1) 0 (tlmFlatIndices s) ∧
       ((tlmFlatIndices s).getLastD 0 : Int) = (numTiles : Int) - 1) := by
  unfold TileLengthMarkers_validate tlmFlatIndices
  rw [validateMarkers_eq_entries]
  cases hv : validateEntries (s.markers.flatMap Prod.snd) 0 with
  | none =>
    constructor
    · intro h
      exact absurd h (by simp)
    · rintro ⟨hc, _⟩
      have : validateEntries (s.markers.flatMap Prod.snd) 0 =
          some ((tlmFlatIndices s).getLastD 0) :=
        (validateEntries_some_iff _ _ _).mpr ⟨hc, rfl⟩
      rw [hv] at this
      exact absurd this (by simp)
  | some t =>
    rw [validateEntries_some_iff] at hv
    obtain ⟨hc, hlast⟩ := hv
    constructor
    · intro h
      refine ⟨hc, ?_⟩
      rw [← hlast]
      exact of_decide_eq_true h
    · rintro ⟨_, hn⟩
      rw [← hlast] at hn
      exact decide_eq_true hn

/-- C9: a tile component with a single resolution (zero decomposition
levels) makes `WaveletInverse::run` return true immediately, leaving
the coefficient buffer untouched — the inverse DWT is the identity map
on such sample data. -/
theorem wavelet_run_single_resolution_identity (tilec : grk_tcd_tilecomp)
    (numres : Nat) (h : tilec.numresolutions = 1) :
    WaveletInverse_run tilec numres = (true, tilec) := by
  unfold WaveletInverse_run
  rw [if_pos h]

theorem wavelet_run_single_resolution_identity_witness :
    (⟨1, [⟨0, 0, 4, 4⟩], 0, 4, [3, 1, 4, 1]⟩ : grk_tcd_tilecomp).numresolutions
        = 1 ∧
    WaveletInverse_run ⟨1, [⟨0, 0, 4, 4⟩], 0, 4, [3, 1, 4, 1]⟩ 1 =
      (true, ⟨1, [⟨0, 0, 4, 4⟩], 0, 4, [3, 1, 4, 1]⟩) :=
  ⟨rfl, wavelet_run_single_resolution_identity _ _ rfl⟩

/-- C8 counterexample: a CBD marker segment whose component-definition
byte is 0x7f is accepted by `read_cbd` and assigns bit precision
`(0x7f & 0x7f) + 1 = 128`, violating the claimed invariant that every
accepted precision is at most 38. -/
theorem read_cbd_counterexample :
    read_cbd [0, 1, 127] 3 ⟨1, [⟨0, 8⟩]⟩ = some ⟨1, [⟨0, 128⟩]⟩ ∧
    ¬ ((⟨1, [⟨0, 128⟩]⟩ : GrkImage).comps.getD 0 default).prec ≤ 38 := by
  decide

/-- C8 (amended): `read_cbd` enforces no 38 bound; the precision it
assigns to each component is `(comp_def & 0x7f) + 1`, which lies in
`[1, 128]`.  (`hlen` is the allocation invariant of the header image:
one component record per signalled component.) -/
theorem read_cbd_precision_range (headerData : List Nat) (header_size : Nat)
    (image image' : GrkImage)
    (hlen : image.numcomps ≤ image.comps.length)
    (h : read_cbd headerData header_size image = some image') :
    ∀ i < image.numcomps,
      1 ≤ (image'.comps.getD i default).prec ∧
      (image'.comps.getD i default).prec ≤ 128 := by
  intro i hi
  unfold read_cbd at h
  by_cases h1 : header_size < 2 ∨ header_size - 2 ≠ image.numcomps
  · rw [if_pos h1] at h
    exact absurd h (by simp)
  · rw [if_neg h1] at h
    by_cases h2 : readBE headerData 0 2 ≠ image.numcomps
    · rw [if_pos h2] at h
      exact absurd h (by simp)
    · rw [if_neg h2] at h
      have himg : image'.comps = (List.range image.numcomps).foldl
          (fun cs i =>
            cs.set i ⟨(byteAt headerData (2 + i) / 128) &&& 1,
                      byteAt headerData (2 + i) % 128 + 1⟩) image.comps := by
        cases h
        rfl
      rw [himg, setRange_foldl_getD
        (fun i => (⟨(byteAt headerData (2 + i) / 128) &&& 1,
                    byteAt headerData (2 + i) % 128 + 1⟩ : GrkComponent))
        _ _ _ _ hi (by omega)]
      dsimp only
      constructor
      · exact Nat.succ_le_succ (Nat.zero_le _)
      · have : byteAt headerData (2 + i) % 128 < 128 := Nat.mod_lt _ (by omega)
        omega

theorem read_cbd_precision_range_witness :
    (⟨1, [⟨0, 8⟩]⟩ : GrkImage).numcomps ≤ (⟨1, [⟨0, 8⟩]⟩ : GrkImage).comps.length ∧
    read_cbd [0, 1, 127] 3 ⟨1, [⟨0, 8⟩]⟩ = some ⟨1, [⟨0, 128⟩]⟩ ∧
    (1 ≤ ((⟨1, [⟨0, 128⟩]⟩ : GrkImage).comps.getD 0 default).prec ∧
     ((⟨1, [⟨0, 128⟩]⟩ : GrkImage).comps.getD 0 default).prec ≤ 128) :=
  ⟨by decide, by decide,
   read_cbd_precision_range [0, 1, 127] 3 ⟨1, [⟨0, 8⟩]⟩ ⟨1, [⟨0, 128⟩]⟩
     (by decide) (by decide) 0 (by decide)⟩

/-- C2: the post-header validation of `parseTileHeaderMarkers` fails
whenever some component of the current tile has `qmfbid = 0` together
with `qntsty = NOQNT`; consequently every tile reported decodable has,
for each component, `qmfbid = 0 → qntsty ≠ NOQNT`. -/
theorem tile_validation_lossy_quantization (tcp : TileCodingParams)
    (numComps : Nat) :
    ((∃ k, k < numComps ∧ (tcp.tccps.getD k default).qmfbid = 0 ∧
        (tcp.tccps.getD k default).qntsty = J2K_CCP_QNTSTY_NOQNT) →
      parseTileHeaderValidation tcp numComps = false) ∧
    (parseTileHeaderValidation tcp numComps = true →
      ∀ k, k < numComps → (tcp.tccps.getD k default).qmfbid = 0 →
        (tcp.tccps.getD k default).qntsty ≠ J2K_CCP_QNTSTY_NOQNT) := by
  have hfail : (∃ k, k < numComps ∧ (tcp.tccps.getD k default).qmfbid = 0 ∧
      (tcp.tccps.getD k default).qntsty = J2K_CCP_QNTSTY_NOQNT) →
      parseTileHeaderValidation tcp numComps = false := by
    rintro ⟨k, hk, hq, hn⟩
    have hany : (List.range numComps).any (lossyNoQuant tcp) = true :=
      List.any_eq_true.mpr ⟨k, List.mem_range.mpr hk, by
        unfold lossyNoQuant
        rw [hq, hn]
        decide⟩
    unfold parseTileHeaderValidation
    rw [if_pos hany]
  refine ⟨hfail, fun h k hk hq hn => ?_⟩
  rw [hfail ⟨k, hk, hq, hn⟩] at h
  exact absurd h (by simp)

theorem tile_validation_lossy_quantization_witness :
    parseTileHeaderValidation ⟨0, 1, [⟨0, 0, 0, [], 1, 0, false, false, false⟩]⟩
      1 = false :=
  (tile_validation_lossy_quantization _ 1).1 ⟨0, by decide, by decide, by decide⟩

theorem mainQcdMaxStep_flagged (tcp : TileCodingParams) (maxD k : Nat)
    (h : mainQcdScopePred tcp k = false) :
    mainQcdMaxStep tcp maxD k = maxD := by
  unfold mainQcdMaxStep
  by_cases hz : (tcp.tccps.getD k default).numresolutions = 0
  · rw [if_pos hz]
  · rw [if_neg hz, if_pos ?_]
    unfold mainQcdScopePred at h
    cases hq1 : (tcp.tccps.getD k default).fromQCC with
    | true => rfl
    | false =>
      rw [hq1] at h
      cases hq2 : (tcp.tccps.getD k default).fromTileHeader with
      | true => simp
      | false => rw [hq2] at h; exact absurd h (by decide)

theorem mainQcdMaxStep_in_scope (tcp : TileCodingParams) (maxD k : Nat)
    (h : mainQcdScopePred tcp k = true)
    (hres : (tcp.tccps.getD k default).numresolutions ≤ 256) :
    mainQcdMaxStep tcp maxD k =
      max maxD ((tcp.tccps.getD k default).numresolutions - 1) := by
  unfold mainQcdScopePred at h
  obtain ⟨h1, h2⟩ := Bool.and_eq_true_iff.mp h
  rw [Bool.not_eq_true'] at h1 h2
  unfold mainQcdMaxStep
  by_cases hz : (tcp.tccps.getD k default).numresolutions = 0
  · rw [if_pos hz, hz]
    omega
  · rw [if_neg hz, h1, h2, if_neg (by decide)]
    congr 1
    omega

theorem mainQcdMaxDecompositions_eq_scope (tcp : TileCodingParams)
    (ks : List Nat) (acc : Nat)
    (hres : ∀ k ∈ ks, (tcp.tccps.getD k default).numresolutions ≤ 256) :
    ks.foldl (mainQcdMaxStep tcp) acc =
    (ks.filter (mainQcdScopePred tcp)).foldl
      (fun m k => max m ((tcp.tccps.getD k default).numresolutions - 1)) acc := by
  induction ks generalizing acc with
  | nil => rfl
  | cons k ks ih =>
    have hk := hres k (List.mem_cons_self _ _)
    have hks : ∀ j ∈ ks, (tcp.tccps.getD j default).numresolutions ≤ 256 :=
      fun j hj => hres j (List.mem_cons_of_mem _ hj)
    rw [List.foldl_cons, List.filter_cons]
    cases hp : mainQcdScopePred tcp k with
    | true =>
      rw [if_pos rfl, List.foldl_cons, mainQcdMaxStep_in_scope tcp acc k hp hk]
      exact ih _ hks
    | false =>
      rw [if_neg (by simp), mainQcdMaxStep_flagged tcp acc k hp]
      exact ih _ hks

/-- C3: when the current tile's main-QCD quantization style is not
SIQNT, the post-header validation of `parseTileHeaderMarkers` fails if
the main-QCD step-size count is below `3 * maxDecomps + 1`, where
`maxDecomps` ranges only over components whose quantization scope is
main-QCD (components bound by QCC or tile-header markers are
excluded).  `hres` is the standard bound on resolution counts
(`numresolutions ≤ 33` in any decodable stream). -/
theorem tile_validation_main_qcd_step_sizes (tcp : TileCodingParams)
    (numComps : Nat)
    (hq : tcp.main_qcd_qntsty ≠ J2K_CCP_QNTSTY_SIQNT)
    (hres : ∀ k, k < numComps →
      (tcp.tccps.getD k default).numresolutions ≤ 256)
    (hlt : tcp.main_qcd_numStepSizes <
      3 * mainQcdScopeMaxDecompositions tcp numComps + 1) :
    parseTileHeaderValidation tcp numComps = false := by
  have hcode : mainQcdMaxDecompositions tcp numComps =
      mainQcdScopeMaxDecompositions tcp numComps := by
    unfold mainQcdMaxDecompositions mainQcdScopeMaxDecompositions
    exact mainQcdMaxDecompositions_eq_scope tcp (List.range numComps) 0
      (fun k hk => hres k (List.mem_range.mp hk))
  unfold parseTileHeaderValidation
  by_cases hany : ((List.range numComps).any (lossyNoQuant tcp)) = true
  · rw [if_pos hany]
  · rw [if_neg hany, if_pos hq, if_pos (by rw [hcode]; exact hlt)]

theorem tile_validation_main_qcd_step_sizes_witness :
    parseTileHeaderValidation ⟨2, 3, [⟨2, 0, 4, [], 2, 1, false, false, false⟩]⟩
      1 = false :=
  tile_validation_main_qcd_step_sizes _ 1 (by decide)
    (by decide) (by decide)

theorem plFindInsert_length_le (k : Nat) (l : List (Nat × List Nat)) :
    (plFindInsert k l).length ≤ l.length + 1 := by
  induction l with
  | nil => simp [plFindInsert]
  | cons p rest ih =>
    obtain ⟨k', v⟩ := p
    unfold plFindInsert
    by_cases h1 : k = k'
    · rw [if_pos h1]
      simp
    · rw [if_neg h1]
      by_cases h2 : k < k'
      · rw [if_pos h2]
        simp
      · rw [if_neg h2]
        simpa using Nat.succ_le_succ ih

theorem plFindInsert_append_of_keys (k : Nat) :
    ∀ (l : List (Nat × List Nat)) (a : Nat),
      l.map Prod.fst = List.range' a l.length → k = a + l.length →
      plFindInsert k l = l ++ [(k, [])] := by
  intro l
  induction l with
  | nil => intro a _ _; rfl
  | cons p rest ih =>
    intro a hkeys hk
    obtain ⟨k', v⟩ := p
    rw [List.length_cons, List.range'_succ] at hkeys
    rw [List.length_cons] at hk
    have hk' : k' = a := by
      have := congrArg (fun l => l.headD 0) hkeys
      simpa using this
    have hrest : rest.map Prod.fst = List.range' (a + 1) rest.length := by
      have := congrArg List.tail hkeys
      simpa using this
    unfold plFindInsert
    rw [if_neg (by omega), if_neg (by omega)]
    rw [ih (a + 1) hrest (by omega)]
    simp

theorem plPushLen_length (k len : Nat) (l : List (Nat × List Nat)) :
    (plPushLen k len l).length = l.length := by
  induction l with
  | nil => rfl
  | cons p rest ih =>
    obtain ⟨k', v⟩ := p
    unfold plPushLen
    by_cases h1 : k = k'
    · rw [if_pos h1]
      simp
    · rw [if_neg h1]
      simpa using ih

theorem readNext_markers_length (b : Nat) (s : PLState) :
    (readNext b s).markers.length = s.markers.length := by
  unfold readNext
  by_cases h : b % 256 ≥ 128
  · rw [if_pos h]
  · rw [if_neg h]
    exact plPushLen_length _ _ _

theorem foldRead_markers_length (bytes : List Nat) (s : PLState) :
    (foldRead bytes s).markers.length = s.markers.length := by
  induction bytes generalizing s with
  | nil => rfl
  | cons b rest ih =>
    rw [show foldRead (b :: rest) s = foldRead rest (readNext b s) from rfl, ih,
      readNext_markers_length]

theorem readPLMGroups_markers_length (header_size : Nat) :
    ∀ (data : List Nat) (s s' : PLState),
      readPLMGroups data header_size s = some s' →
      s'.markers.length = s.markers.length := by
  induction header_size using Nat.strong_induction_on with
  | _ hs ih =>
    intro data s s' h
    rw [readPLMGroups] at h
    by_cases h0 : hs = 0
    · rw [if_pos h0] at h
      cases h
      rfl
    · rw [if_neg h0] at h
      by_cases h1 : hs < 1 + byteAt data 0
      · rw [if_pos h1] at h
        exact absurd h (by simp)
      · rw [if_neg h1] at h
        by_cases h2 :
            (foldRead ((data.drop 1).take (byteAt data 0)) s).packet_len ≠ 0
        · rw [if_pos h2] at h
          exact absurd h (by simp)
        · rw [if_neg h2] at h
          have := ih (hs - (1 + byteAt data 0)) (by omega) _ _ _ h
          rw [this, foldRead_markers_length]

theorem readInit_markers_length (index : Nat) (isPLM : Bool) (s s' : PLState)
    (h : readInit index isPLM s = some s') :
    s'.markers.length ≤ s.markers.length + 1 := by
  unfold readInit at h
  by_cases h1 : s.markers.length = 255 ∧ isPLM = true
  · rw [if_pos h1] at h
    exact absurd h (by simp)
  · rw [if_neg h1] at h
    by_cases h2 : s.markers.isEmpty = true
    · rw [if_pos h2] at h
      cases h
      exact plFindInsert_length_le _ _
    · rw [if_neg h2] at h
      by_cases h3 : s.sequential = true
      · rw [if_pos h3] at h
        by_cases h4 : s.markers.length % 256 = index
        · rw [if_pos h4] at h
          cases h
          exact plFindInsert_length_le _ _
        · rw [if_neg h4] at h
          by_cases h5 : 256 < s.markers.length
          · rw [if_pos h5] at h
            exact absurd h (by simp)
          · rw [if_neg h5] at h
            cases h
            exact plFindInsert_length_le _ _
      · rw [if_neg h3] at h
        cases h
        exact plFindInsert_length_le _ _

/-- C6: while every PLT marker's signalled index has matched the
running marker count mod 256, `readInit` keeps sequential mode and
files the incoming marker under the marker count itself: a fresh map
entry is appended at the end of the store, so more than 256 markers
accumulate without any concatenation.  And once the store has grown
past 256 markers in sequential mode, a signalled index that breaks the
mod-256 sequence makes `readInit` — and hence `readPLT` — fail. -/
theorem plt_sequential_mode (s : PLState) :
    ((s.markers = [] ∨ s.sequential = true) →
      s.markers.map Prod.fst = List.range s.markers.length →
      readInit (s.markers.length % 256) false s =
        some ⟨s.markers ++ [(s.markers.length, [])],
              s.markers.length, true, 0⟩) ∧
    (∀ index data header_size, s.sequential = true →
      256 < s.markers.length → index < 256 →
      index ≠ s.markers.length % 256 →
      readPLT (index :: data) header_size s = none) := by
  constructor
  · intro hseq hkeys
    have hins : plFindInsert s.markers.length s.markers =
        s.markers ++ [(s.markers.length, [])] := by
      refine plFindInsert_append_of_keys _ s.markers 0 ?_ (by omega)
      rwa [List.range_eq_range'] at hkeys
    unfold readInit
    rw [if_neg (by simp)]
    by_cases hm : s.markers.isEmpty = true
    · have hm' : s.markers = [] := by
        rwa [List.isEmpty_eq_true] at hm
      rw [if_pos hm, hm']
      rfl
    · have hne : s.markers ≠ [] := by
        rwa [List.isEmpty_eq_true] at hm
      have hseq' : s.sequential = true := by
        rcases hseq with h | h
        · exact absurd h hne
        · exact h
      rw [if_neg hm, if_pos hseq', if_pos rfl, hins]
  · intro index data header_size hseq hlen hidx hne
    unfold readPLT
    by_cases h0 : header_size < 1
    · rw [if_pos h0]
    · rw [if_neg h0]
      have hbyte : byteAt (index :: data) 0 = index := by
        unfold byteAt
        simp [Nat.mod_eq_of_lt hidx]
      rw [hbyte]
      have hinit : readInit index false s = none := by
        unfold readInit
        rw [if_neg (by simp), if_neg (by
          simp only [List.isEmpty_eq_true]
          intro h
          rw [h] at hlen
          exact absurd hlen (by simp)), if_pos hseq,
          if_neg (fun h => hne h.symm), if_pos hlen]
      rw [hinit]

theorem plt_sequential_mode_witness :
    readInit 1 false ⟨[(0, [7])], 0, true, 0⟩ =
      some ⟨[(0, [7]), (1, [])], 1, true, 0⟩ ∧
    readPLT [5] 1 ⟨(List.range 257).map (fun i => (i, [])), 0, true, 0⟩ =
      none := by
  constructor
  · have h := (plt_sequential_mode ⟨[(0, [7])], 0, true, 0⟩).1
      (Or.inr rfl) (by decide)
    simpa using h
  · exact (plt_sequential_mode _).2 5 [] 1 rfl
      (by simp) (by decide) (by simp)

/-- C10: the PLM store holds at most 255 markers.  When 255 PLM
markers are already stored, any further `readPLM` fails via
`readInit`; and a successful `readPLM` never grows the store past 255
markers, so the sequential extension beyond 256 markers is never
available to PLM. -/
theorem plm_marker_cap (s : PLState) :
    (s.markers.length = 255 →
      ∀ data header_size, readPLM data header_size s = none) ∧
    (∀ data header_size s', s.markers.length ≤ 255 →
      readPLM data header_size s = some s' → s'.markers.length ≤ 255) := by
  constructor
  · intro hlen data header_size
    unfold readPLM
    by_cases h0 : header_size < 1
    · rw [if_pos h0]
    · rw [if_neg h0]
      have hinit : readInit (byteAt data 0) true s = none := by
        unfold readInit
        rw [if_pos ⟨hlen, rfl⟩]
      rw [hinit]
  · intro data header_size s' hlen h
    unfold readPLM at h
    by_cases h0 : header_size < 1
    · rw [if_pos h0] at h
      exact absurd h (by simp)
    · rw [if_neg h0] at h
      cases hinit : readInit (byteAt data 0) true s with
      | none =>
        rw [hinit] at h
        exact absurd h (by simp)
      | some s1 =>
        rw [hinit] at h
        have h255 : s.markers.length ≠ 255 := by
          intro hc
          unfold readInit at hinit
          rw [if_pos ⟨hc, rfl⟩] at hinit
          exact absurd hinit (by simp)
        have hlen1 : s1.markers.length ≤ s.markers.length + 1 :=
          readInit_markers_length _ _ _ _ hinit
        have := readPLMGroups_markers_length _ _ _ _ h
        omega

theorem readPLM_concrete_example :
    readPLM [0, 2, 0x85, 0x02] 4 PLState.init =
      some ⟨[(0, [642])], 0, true, 0⟩ := by
  have h1 : readInit (byteAt [0, 2, 0x85, 0x02] 0) true PLState.init =
      some ⟨[(0, [])], 0, true, 0⟩ := by decide
  unfold readPLM
  rw [if_neg (by decide), h1]
  show readPLMGroups [2, 0x85, 0x02] 3 ⟨[(0, [])], 0, true, 0⟩ =
    some ⟨[(0, [642])], 0, true, 0⟩
  unfold readPLMGroups
  rw [if_neg (by decide), if_neg (by decide), if_neg (by decide)]
  unfold readPLMGroups
  rw [if_pos (by decide)]
  decide

theorem plm_marker_cap_witness :
    readPLM [7, 0] 2 ⟨(List.range 255).map (fun i => (i, [])), 0, true, 0⟩ =
      none ∧
    readPLM [0, 2, 0x85, 0x02] 4 PLState.init =
      some ⟨[(0, [642])], 0, true, 0⟩ ∧
    (⟨[(0, [642])], 0, true, 0⟩ : PLState).markers.length ≤ 255 :=
  ⟨(plm_marker_cap _).1 (by simp) [7, 0] 2,
   readPLM_concrete_example,
   (plm_marker_cap _).2 [0, 2, 0x85, 0x02] 4 _ (by decide)
     readPLM_concrete_example⟩

theorem readInit_packet_len (index : Nat) (isPLM : Bool) (s s' : PLState)
    (h : readInit index isPLM s = some s') : s'.packet_len = 0 := by
  unfold readInit at h
  by_cases h1 : s.markers.length = 255 ∧ isPLM = true
  · rw [if_pos h1] at h
    exact absurd h (by simp)
  · rw [if_neg h1] at h
    by_cases h2 : s.markers.isEmpty = true
    · rw [if_pos h2] at h
      cases h
      rfl
    · rw [if_neg h2] at h
      by_cases h3 : s.sequential = true
      · rw [if_pos h3] at h
        by_cases h4 : s.markers.length % 256 = index
        · rw [if_pos h4] at h
          cases h
          rfl
        · rw [if_neg h4] at h
          by_cases h5 : 256 < s.markers.length
          · rw [if_pos h5] at h
            exact absurd h (by simp)
          · rw [if_neg h5] at h
            cases h
            rfl
      · rw [if_neg h3] at h
        cases h
        rfl

theorem foldRead_group (g : List Nat) (s : PLState)
    (hg : plGroupOk g = true) :
    foldRead g s = { s with
      markers := plPushLen s.markerIndex (plDecodeGroup s.packet_len g)
        s.markers
      packet_len := 0 } := by
  induction g generalizing s with
  | nil => exact absurd hg (by simp [plGroupOk])
  | cons b rest ih =>
    cases rest with
    | nil =>
      have hb : b % 256 < 128 := by
        simpa [plGroupOk] using hg
      show readNext b s = _
      unfold readNext
      rw [if_neg (by omega)]
      rfl
    | cons c rest' =>
      have hg' : (decide (128 ≤ b % 256) && plGroupOk (c :: rest')) = true := hg
      obtain ⟨hb', hrest⟩ := Bool.and_eq_true_iff.mp hg'
      have hb : 128 ≤ b % 256 := of_decide_eq_true hb'
      show foldRead (c :: rest') (readNext b s) = _
      rw [show readNext b s = { s with
          packet_len := ((s.packet_len ||| (b % 128)) <<< 7) % 2 ^ 32 } by
        unfold readNext
        rw [if_pos (by omega)]]
      rw [ih _ hrest]
      rfl

theorem foldRead_flatten (gs : List (List Nat)) (s : PLState)
    (h0 : s.packet_len = 0) (hg : ∀ g ∈ gs, plGroupOk g = true) :
    foldRead gs.flatten s = { s with
      markers := gs.foldl (fun m g =>
        plPushLen s.markerIndex (plDecodeGroup 0 g) m) s.markers
      packet_len := 0 } := by
  induction gs generalizing s with
  | nil =>
    obtain ⟨m, i, sq, pl⟩ := s
    cases h0
    rfl
  | cons g gs' ih =>
    rw [show (g :: gs').flatten = g ++ gs'.flatten from rfl]
    rw [show foldRead (g ++ gs'.flatten) s =
      foldRead gs'.flatten (foldRead g s) by
        unfold foldRead
        rw [List.foldl_append]]
    rw [foldRead_group g s (hg g (by simp))]
    rw [h0]
    rw [ih _ rfl (fun g' hg' => hg g' (by simp [hg']))]
    rw [List.foldl_cons]

theorem readPLMGroups_blocks (blocks : List (List (List Nat))) :
    ∀ (s : PLState), s.packet_len = 0 →
      (∀ gs ∈ blocks, gs.flatten.length < 256 ∧
        ∀ g ∈ gs, plGroupOk g = true) →
      readPLMGroups (plmBlockBytes blocks) (plmBlockBytes blocks).length s =
        some { s with
          markers := blocks.foldl (fun m gs => gs.foldl (fun m g =>
            plPushLen s.markerIndex (plDecodeGroup 0 g) m) m) s.markers
          packet_len := 0 } := by
  induction blocks with
  | nil =>
    intro s h0 _
    obtain ⟨m, i, sq, pl⟩ := s
    cases h0
    show readPLMGroups [] 0 _ = _
    unfold readPLMGroups
    rw [if_pos rfl]
    rfl
  | cons gs blocks' ih =>
    intro s h0 hblocks
    obtain ⟨hlen, hgroups⟩ := hblocks gs (by simp)
    have hbytes : plmBlockBytes (gs :: blocks') =
        (gs.flatten.length :: gs.flatten) ++ plmBlockBytes blocks' := by
      unfold plmBlockBytes
      rfl
    rw [hbytes]
    unfold readPLMGroups
    have hbyte0 : byteAt ((gs.flatten.length :: gs.flatten) ++
        plmBlockBytes blocks') 0 = gs.flatten.length := by
      show (gs.flatten.length :: (gs.flatten ++ plmBlockBytes blocks')).getD 0 0
          % 256 = gs.flatten.length
      rw [show (gs.flatten.length ::
        (gs.flatten ++ plmBlockBytes blocks')).getD 0 0 =
        gs.flatten.length from rfl]
      exact Nat.mod_eq_of_lt hlen
    rw [if_neg (by simp), hbyte0]
    rw [if_neg (by simp [Nat.add_comm])]
    have hdrop1 : ((gs.flatten.length :: gs.flatten) ++
        plmBlockBytes blocks').drop 1 = gs.flatten ++ plmBlockBytes blocks' :=
      rfl
    have htake : (((gs.flatten.length :: gs.flatten) ++
        plmBlockBytes blocks').drop 1).take gs.flatten.length = gs.flatten := by
      rw [hdrop1]
      exact List.take_left _ _
    rw [htake, foldRead_flatten gs s h0 hgroups]
    rw [if_neg (by simp)]
    have hdrop : ((gs.flatten.length :: gs.flatten) ++
        plmBlockBytes blocks').drop (1 + gs.flatten.length) =
        plmBlockBytes blocks' := by
      rw [show (gs.flatten.length :: gs.flatten) ++ plmBlockBytes blocks' =
        (gs.flatten.length :: gs.flatten) ++ plmBlockBytes blocks' from rfl,
        List.drop_append_of_le_length (by simp [Nat.add_comm])]
      simp [Nat.add_comm]
    have hsize : ((gs.flatten.length :: gs.flatten) ++
        plmBlockBytes blocks').length - (1 + gs.flatten.length) =
        (plmBlockBytes blocks').length := by
      simp
      omega
    rw [hdrop, hsize]
    rw [ih _ rfl (fun gs' h => hblocks gs' (by simp [h]))]
    rw [List.foldl_cons]

/-- C5 counterexample: the PLT segment `[Zplt = 0, 0x80]` ends in a
byte whose continuation (high) bit is set, yet `readPLT` accepts it:
after that byte the accumulator is `((0 ||| (0x80 & 0x7f)) << 7) = 0`,
so the residual check `packet_len_ != 0` does not fire.  The claim's
identification of "final byte has the continuation bit set" with
"accumulated length is nonzero" is false. -/
theorem readPLT_continuation_counterexample :
    readPLT [0, 0x80] 2 PLState.init = some ⟨[(0, [])], 0, true, 0⟩ ∧
    128 ≤ 0x80 % 256 := by
  decide

/-- C5 (amended): `readPLT` and `readPLM` fail with an error exactly
when the partially accumulated length register is nonzero at the end
of the marker segment (for PLM, at the end of each `Nplm` group) — a
final continuation byte escapes the check when the accumulated bits
are all zero.  For a segment in which every base-128 encoded length
terminates inside the segment, the residual check passes and the
decoded lengths are appended to the store:
(i) a PLT body that is a concatenation of terminated groups is
accepted and appends each group's decoded value;
(ii) a PLT body whose residual accumulator is nonzero is rejected;
(iii) a PLM body made of `Nplm`-prefixed blocks of terminated groups
is accepted and appends all decoded values;
(iv) a PLM `Nplm` block with nonzero residual accumulator is
rejected. -/
theorem pl_read_residual (s : PLState) :
    (∀ (Z : Nat) (gs : List (List Nat)) (s1 : PLState), Z < 256 →
      readInit Z false s = some s1 →
      (∀ g ∈ gs, plGroupOk g = true) →
      readPLT (Z :: gs.flatten) (1 + gs.flatten.length) s =
        some { s1 with
          markers := gs.foldl (fun m g =>
            plPushLen s1.markerIndex (plDecodeGroup 0 g) m) s1.markers
          packet_len := 0 }) ∧
    (∀ (Z : Nat) (body : List Nat) (s1 : PLState), Z < 256 →
      readInit Z false s = some s1 →
      (foldRead body s1).packet_len ≠ 0 →
      readPLT (Z :: body) (1 + body.length) s = none) ∧
    (∀ (Z : Nat) (blocks : List (List (List Nat))) (s1 : PLState), Z < 256 →
      readInit Z true s = some s1 →
      (∀ gs ∈ blocks, gs.flatten.length < 256 ∧
        ∀ g ∈ gs, plGroupOk g = true) →
      readPLM (Z :: plmBlockBytes blocks)
        (1 + (plmBlockBytes blocks).length) s =
        some { s1 with
          markers := blocks.foldl (fun m gs => gs.foldl (fun m g =>
            plPushLen s1.markerIndex (plDecodeGroup 0 g) m) m) s1.markers
          packet_len := 0 }) ∧
    (∀ (body rest : List Nat) (s1 : PLState), body.length < 256 →
      (foldRead body s1).packet_len ≠ 0 →
      readPLMGroups (body.length :: body ++ rest)
        (1 + body.length + rest.length) s1 = none) := by
  have hbyteZ : ∀ (Z : Nat) (l : List Nat), Z < 256 →
      byteAt (Z :: l) 0 = Z := by
    intro Z l hZ
    show (Z :: l).getD 0 0 % 256 = Z
    rw [show (Z :: l).getD 0 0 = Z from rfl]
    exact Nat.mod_eq_of_lt hZ
  refine ⟨?_, ?_, ?_, ?_⟩
  · intro Z gs s1 hZ hinit hgroups
    unfold readPLT
    rw [if_neg (by omega), hbyteZ Z _ hZ, hinit]
    show (if (foldRead (((Z :: gs.flatten).drop 1).take
        (1 + gs.flatten.length - 1)) s1).packet_len ≠ 0 then none
      else some (foldRead (((Z :: gs.flatten).drop 1).take
        (1 + gs.flatten.length - 1)) s1)) = _
    rw [show ((Z :: gs.flatten).drop 1).take (1 + gs.flatten.length - 1) =
      gs.flatten by
        rw [show (Z :: gs.flatten).drop 1 = gs.flatten from rfl]
        rw [show 1 + gs.flatten.length - 1 = gs.flatten.length by omega]
        exact List.take_length gs.flatten]
    rw [foldRead_flatten gs s1 (readInit_packet_len _ _ _ _ hinit) hgroups]
    rw [if_neg (by simp)]
  · intro Z body s1 hZ hinit hres
    unfold readPLT
    rw [if_neg (by omega), hbyteZ Z _ hZ, hinit]
    show (if (foldRead (((Z :: body).drop 1).take
        (1 + body.length - 1)) s1).packet_len ≠ 0 then none
      else some (foldRead (((Z :: body).drop 1).take
        (1 + body.length - 1)) s1)) = _
    rw [show ((Z :: body).drop 1).take (1 + body.length - 1) = body by
        rw [show (Z :: body).drop 1 = body from rfl]
        rw [show 1 + body.length - 1 = body.length by omega]
        exact List.take_length body]
    rw [if_pos hres]
  · intro Z blocks s1 hZ hinit hblocks
    unfold readPLM
    rw [if_neg (by omega), hbyteZ Z _ hZ, hinit]
    rw [show (Z :: plmBlockBytes blocks).drop 1 = plmBlockBytes blocks
      from rfl]
    rw [show 1 + (plmBlockBytes blocks).length - 1 =
      (plmBlockBytes blocks).length by omega]
    exact readPLMGroups_blocks blocks s1
      (readInit_packet_len _ _ _ _ hinit) hblocks
  · intro body rest s1 hlen hres
    unfold readPLMGroups
    rw [if_neg (by omega)]
    have hbyte0 : byteAt (body.length :: body ++ rest) 0 = body.length := by
      show (body.length :: (body ++ rest)).getD 0 0 % 256 = body.length
      rw [show (body.length :: (body ++ rest)).getD 0 0 = body.length
        from rfl]
      exact Nat.mod_eq_of_lt hlen
    rw [hbyte0, if_neg (by omega)]
    rw [show ((body.length :: body ++ rest).drop 1).take body.length = body by
        rw [show (body.length :: body ++ rest).drop 1 = body ++ rest from rfl]
        exact List.take_left _ _]
    rw [if_pos hres]

theorem pl_read_residual_witness :
    readPLT [0, 0x85, 0x02, 0x7f] 4 PLState.init =
      some ⟨[(0, [642, 127])], 0, true, 0⟩ ∧
    readPLT [0, 0x85] 2 PLState.init = none ∧
    readPLM [0, 3, 0x85, 0x02, 0x7f] 5 PLState.init =
      some ⟨[(0, [642, 127])], 0, true, 0⟩ ∧
    readPLMGroups [1, 0x85] 2 PLState.init = none := by
  refine ⟨?_, ?_, ?_, ?_⟩
  · exact (pl_read_residual PLState.init).1 0 [[0x85, 0x02], [0x7f]]
      ⟨[(0, [])], 0, true, 0⟩ (by decide) (by decide) (by decide)
  · exact (pl_read_residual PLState.init).2.1 0 [0x85]
      ⟨[(0, [])], 0, true, 0⟩ (by decide) (by decide) (by decide)
  · exact (pl_read_residual PLState.init).2.2.1 0 [[[0x85, 0x02], [0x7f]]]
      ⟨[(0, [])], 0, true, 0⟩ (by decide) (by decide) (by decide)
  · exact (pl_read_residual PLState.init).2.2.2 [0x85] [] PLState.init
      (by decide) (by decide)

/-- C7 counterexample: `TileLengthMarkers::read` accepts the L byte
0x30, which encodes `L_iT = 3` (both tile-index bits set): the check
`(L & ~0x70) != 0` only rejects bits outside 0x70, so 0x30 passes and
three-byte tile indices are read.  The segment below (Ztlm = 0,
L = 0x30, one tile part with 3-byte tile index 5 and 2-byte length 7)
is accepted, while the claim requires failure for any `L_iT = 3`. -/
theorem tlm_read_L_counterexample :
    TileLengthMarkers_read [0, 0x30, 0, 0, 5, 0, 7] 7 TLMState.init =
      some ⟨[(0, [⟨5, 7⟩])], false, true, 0⟩ ∧
    tlmLiT 0x30 = 3 := by
  decide

/-- C7 (amended): `TileLengthMarkers::read` rejects exactly the
segments that are shorter than `tlm_marker_start_bytes`, whose L byte
has a bit outside 0x70 set (`L & 0x8F != 0`, i.e. layout
`0 L_LTP L_iT[2] 0000` with `L_LTP ∈ {0,1}` and `L_iT ∈ {0,1,2,3}`),
or whose entry bytes are not a multiple of the entry size; in
particular an L byte with `L_iT = 3` passes the L check and is parsed
with 3-byte tile indices. -/
theorem tlm_read_failure_characterization (data : List Nat)
    (header_size : Nat) (s : TLMState) :
    TileLengthMarkers_read data header_size s = none ↔
      (header_size < tlm_marker_start_bytes ∨
       byteAt data 1 &&& 0x8F ≠ 0 ∨
       (header_size - 2) % (tlmBytesPer (byteAt data 1) +
         tlmLiT (byteAt data 1)) ≠ 0) := by
  unfold TileLengthMarkers_read
  by_cases h1 : header_size < tlm_marker_start_bytes
  · rw [if_pos h1]
    exact iff_of_true rfl (Or.inl h1)
  · rw [if_neg h1]
    by_cases h2 : byteAt data 1 &&& 0x8F ≠ 0
    · rw [if_pos h2]
      exact iff_of_true rfl (Or.inr (Or.inl h2))
    · rw [if_neg h2]
      by_cases h3 : (header_size - 2) % (tlmBytesPer (byteAt data 1) +
          tlmLiT (byteAt data 1)) ≠ 0
      · rw [if_pos h3]
        exact iff_of_true rfl (Or.inr (Or.inr h3))
      · rw [if_neg h3]
        constructor
        · intro h
          exact absurd h (by simp)
        · rintro (h | h | h)
          · exact absurd h h1
          · exact absurd h h2
          · exact absurd h h3

theorem tlm_read_failure_characterization_witness :
    TileLengthMarkers_read [0, 0x01, 0, 0] 6 TLMState.init = none ∧
    TileLengthMarkers_read [0, 0x30, 0, 0, 5, 0, 7] 8 TLMState.init = none :=
  ⟨(tlm_read_failure_characterization [0, 0x01, 0, 0] 6 TLMState.init).mpr
     (Or.inr (Or.inl (by decide))),
   (tlm_read_failure_characterization [0, 0x30, 0, 0, 5, 0, 7] 8
     TLMState.init).mpr (Or.inr (Or.inr (by decide)))⟩

theorem tlm_validate_chain_characterization_witness :
    TileLengthMarkers_validate ⟨[(0, [⟨0, 9⟩, ⟨1, 4⟩])], false, true, 0⟩ 2 =
      true :=
  (tlm_validate_chain_characterization
    ⟨[(0, [⟨0, 9⟩, ⟨1, 4⟩])], false, true, 0⟩ 2).mpr
    ⟨List.Chain.cons (Or.inl rfl) (List.Chain.cons (Or.inr rfl)
      List.Chain.nil), by decide⟩

theorem getD_set_ne {α : Type} (l : List α) (i j : Nat) (x d : α)
    (h : i ≠ j) : (l.set i x).getD j d = l.getD j d := by
  rw [List.getD_eq_getD_get?, List.getD_eq_getD_get?, List.get?_eq_getElem?,
    List.get?_eq_getElem?, List.getElem?_set_ne h]

theorem getD_set_self {α : Type} (l : List α) (i : Nat) (x d : α)
    (h : i < l.length) : (l.set i x).getD i d = x := by
  rw [List.getD_eq_getD_get?, List.get?_eq_getElem?,
    List.getElem?_set_eq_of_lt _ h]
  rfl

theorem qcdPropagateStep_length (src : TileComponentCodingParams)
    (l : List TileComponentCodingParams) (i : Nat) :
    (qcdPropagateStep src l i).length = l.length := by
  unfold qcdPropagateStep
  by_cases h : ((l.getD i default).fromQCC &&
      (!src.fromTileHeader || (l.getD i default).fromTileHeader)) = true
  · rw [if_pos h]
  · rw [if_neg h, List.length_set]

theorem qcdPropagateStep_getD_ne (src : TileComponentCodingParams)
    (l : List TileComponentCodingParams) (i j : Nat) (h : i ≠ j) :
    (qcdPropagateStep src l i).getD j default = l.getD j default := by
  unfold qcdPropagateStep
  by_cases hig : ((l.getD i default).fromQCC &&
      (!src.fromTileHeader || (l.getD i default).fromTileHeader)) = true
  · rw [if_pos hig]
  · rw [if_neg hig, getD_set_ne _ _ _ _ _ h]

theorem qcdPropagateStep_getD_self (src : TileComponentCodingParams)
    (l : List TileComponentCodingParams) (j : Nat) (h : j < l.length) :
    (qcdPropagateStep src l j).getD j default =
      qcdPointStep src (l.getD j default) := by
  unfold qcdPropagateStep qcdPointStep
  by_cases hig : ((l.getD j default).fromQCC &&
      (!src.fromTileHeader || (l.getD j default).fromTileHeader)) = true
  · rw [if_pos hig, if_pos hig]
  · rw [if_neg hig, if_neg hig, getD_set_self _ _ _ _ h]

theorem qcdPropagate_fold_length (src : TileComponentCodingParams)
    (is : List Nat) (l : List TileComponentCodingParams) :
    (is.foldl (qcdPropagateStep src) l).length = l.length := by
  induction is generalizing l with
  | nil => rfl
  | cons i is' ih =>
    rw [List.foldl_cons, ih, qcdPropagateStep_length]

theorem qcdPropagate_fold_getD_not_mem (src : TileComponentCodingParams)
    (is : List Nat) (l : List TileComponentCodingParams) (j : Nat)
    (h : j ∉ is) :
    (is.foldl (qcdPropagateStep src) l).getD j default = l.getD j default := by
  induction is generalizing l with
  | nil => rfl
  | cons i is' ih =>
    rw [List.foldl_cons, ih _ (fun hj => h (List.mem_cons_of_mem _ hj)),
      qcdPropagateStep_getD_ne src l i j
        (fun hij => h (hij ▸ List.mem_cons_self _ _))]

theorem qcdPropagate_fold_getD_mem (src : TileComponentCodingParams)
    (is : List Nat) (l : List TileComponentCodingParams) (j : Nat)
    (hnd : is.Nodup) (hj : j ∈ is) (hlen : j < l.length) :
    (is.foldl (qcdPropagateStep src) l).getD j default =
      qcdPointStep src (l.getD j default) := by
  induction is generalizing l with
  | nil => cases hj
  | cons i is' ih =>
    rw [List.foldl_cons]
    rcases List.mem_cons.mp hj with rfl | hj'
    · have hni : j ∉ is' := (List.nodup_cons.mp hnd).1
      rw [qcdPropagate_fold_getD_not_mem src is' _ j hni,
        qcdPropagateStep_getD_self src l j hlen]
    · have hne : i ≠ j := by
        rintro rfl
        exact (List.nodup_cons.mp hnd).1 hj'
      rw [ih (qcdPropagateStep src l i) (List.nodup_cons.mp hnd).2 hj'
        (by rw [qcdPropagateStep_length]; exact hlen),
        qcdPropagateStep_getD_ne src l i j hne]

theorem qcdPointStep_preserves_flags (src x : TileComponentCodingParams) :
    (qcdPointStep src x).fromQCC = x.fromQCC ∧
    (qcdPointStep src x).fromTileHeader = x.fromTileHeader := by
  unfold qcdPointStep
  by_cases hig : (x.fromQCC && (!src.fromTileHeader || x.fromTileHeader))
      = true
  · rw [if_pos hig]
    exact ⟨rfl, rfl⟩
  · rw [if_neg hig]
    exact ⟨rfl, rfl⟩

theorem qcdPointStep_idem (src x : TileComponentCodingParams) :
    qcdPointStep src (qcdPointStep src x) = qcdPointStep src x := by
  by_cases hig : (x.fromQCC && (!src.fromTileHeader || x.fromTileHeader))
      = true
  · have hx : qcdPointStep src x = x := by
      unfold qcdPointStep
      rw [if_pos hig]
    rw [hx]
    exact hx
  · rw [show qcdPointStep src x = { x with
      qntsty := src.qntsty
      numgbits := src.numgbits
      stepsizes := src.stepsizes } by unfold qcdPointStep; rw [if_neg hig]]
    unfold qcdPointStep
    rw [if_neg hig]

theorem qcdPropagate_getD_zero (src : TileComponentCodingParams)
    (l : List TileComponentCodingParams) (n : Nat) :
    (qcdPropagate src l n).getD 0 default = l.getD 0 default := by
  unfold qcdPropagate
  refine qcdPropagate_fold_getD_not_mem src _ l 0 (fun h => ?_)
  have := (List.mem_range'_1.mp h).1
  omega

theorem qcdPropagate_length (src : TileComponentCodingParams)
    (l : List TileComponentCodingParams) (n : Nat) :
    (qcdPropagate src l n).length = l.length :=
  qcdPropagate_fold_length src _ l

theorem qcdPropagate_idem (src : TileComponentCodingParams)
    (l : List TileComponentCodingParams) (n : Nat) :
    qcdPropagate src (qcdPropagate src l n) n = qcdPropagate src l n := by
  have hnd : (List.range' 1 (n - 1)).Nodup := by
    simpa using List.nodup_range' 1 (n - 1) 1 (by omega)
  apply List.ext_getElem
  · rw [qcdPropagate_length, qcdPropagate_length]
  · intro j hj1 hj2
    have hjl : j < l.length := by
      rw [qcdPropagate_length, qcdPropagate_length] at hj1
      exact hj1
    rw [← List.getD_eq_getElem _ default hj1, ← List.getD_eq_getElem _ default hj2]
    unfold qcdPropagate
    by_cases hj : j ∈ List.range' 1 (n - 1)
    · rw [qcdPropagate_fold_getD_mem src _ _ j hnd hj
          (by rw [qcdPropagate_fold_length]; exact hjl),
        qcdPropagate_fold_getD_mem src _ _ j hnd hj hjl,
        qcdPointStep_idem]
    · rw [qcdPropagate_fold_getD_not_mem src _ _ j hj]

theorem sqcc_eval_ignore (fQ fT : Bool) (comp_no : Nat) (hdr : List Nat)
    (hs : Nat) (tcp : TileCodingParams)
    (h1 : ¬ hs < 1)
    (hq : ¬ J2K_CCP_QNTSTY_SEQNT < byteAt hdr 0 % 32)
    (hig : sqccIgnore (tcp.tccps.getD comp_no default) fQ fT = true) :
    read_SQcd_SQcc fQ fT comp_no hdr hs tcp =
      if byteAt hdr 0 % 32 = J2K_CCP_QNTSTY_NOQNT then
        (if hs - 1 < (tcp.tccps.getD comp_no default).numStepSizes then none
         else some (tcp,
           hs - 1 - (tcp.tccps.getD comp_no default).numStepSizes))
      else
        (if hs - 1 < 2 * (tcp.tccps.getD comp_no default).numStepSizes
         then none
         else some (tcp,
           hs - 1 - 2 * (tcp.tccps.getD comp_no default).numStepSizes)) := by
  unfold read_SQcd_SQcc
  rw [if_neg h1]
  simp only []
  rw [if_neg hq, hig]
  by_cases hqn : byteAt hdr 0 % 32 = J2K_CCP_QNTSTY_NOQNT
  · rw [if_pos hqn, if_pos hqn, if_pos rfl]
    by_cases hsz : hs - 1 < (tcp.tccps.getD comp_no default).numStepSizes
    · rw [if_pos hsz, if_pos hsz]
    · rw [if_neg hsz, if_neg hsz, if_pos rfl, if_pos rfl]
  · rw [if_neg hqn, if_neg hqn, if_pos rfl]
    by_cases hsz : hs - 1 < 2 * (tcp.tccps.getD comp_no default).numStepSizes
    · rw [if_pos hsz, if_pos hsz]
    · rw [if_neg hsz, if_neg hsz, if_pos rfl, if_pos rfl]

theorem sqcc_second_from_record (hdr : List Nat) (hs : Nat)
    (tcpB : TileCodingParams) (r : Nat) (t : TileComponentCodingParams)
    (h1 : ¬ hs < 1)
    (hq : ¬ J2K_CCP_QNTSTY_SEQNT < byteAt hdr 0 % 32)
    (hB : tcpB.tccps.getD 0 default = t)
    (hig : sqccIgnore t false false = true)
    (hbranch :
      (byteAt hdr 0 % 32 = J2K_CCP_QNTSTY_NOQNT ∧
       ¬ (hs - 1 < t.numStepSizes) ∧ r = hs - 1 - t.numStepSizes) ∨
      (byteAt hdr 0 % 32 ≠ J2K_CCP_QNTSTY_NOQNT ∧
       ¬ (hs - 1 < 2 * t.numStepSizes) ∧ r = hs - 1 - 2 * t.numStepSizes)) :
    read_SQcd_SQcc false false 0 hdr hs tcpB = some (tcpB, r) := by
  rw [sqcc_eval_ignore false false 0 hdr hs tcpB h1 hq (by rw [hB]; exact hig),
    hB]
  rcases hbranch with ⟨hqn, hsz, hr⟩ | ⟨hqn, hsz, hr⟩
  · rw [if_pos hqn, if_neg hsz, hr]
  · rw [if_neg hqn, if_neg hsz, hr]

theorem sqcc_second_run (hdr : List Nat) (hs : Nat)
    (tcp tcpA tcpB : TileCodingParams) (r : Nat)
    (hne : 0 < tcp.tccps.length)
    (h : read_SQcd_SQcc false false 0 hdr hs tcp = some (tcpA, r))
    (hB : tcpB.tccps.getD 0 default = tcpA.tccps.getD 0 default) :
    read_SQcd_SQcc false false 0 hdr hs tcpB = some (tcpB, r) := by
  by_cases h1 : hs < 1
  · unfold read_SQcd_SQcc at h
    rw [if_pos h1] at h
    exact absurd h (by simp)
  by_cases hq : J2K_CCP_QNTSTY_SEQNT < byteAt hdr 0 % 32
  · unfold read_SQcd_SQcc at h
    rw [if_neg h1] at h
    simp only [] at h
    rw [if_pos hq] at h
    exact absurd h (by simp)
  by_cases hig1 : sqccIgnore (tcp.tccps.getD 0 default) false false = true
  · -- run 1 was ignored: nothing was written, tcpA = tcp
    rw [sqcc_eval_ignore false false 0 hdr hs tcp h1 hq hig1] at h
    by_cases hqn : byteAt hdr 0 % 32 = J2K_CCP_QNTSTY_NOQNT
    · rw [if_pos hqn] at h
      by_cases hsz : hs - 1 < (tcp.tccps.getD 0 default).numStepSizes
      · rw [if_pos hsz] at h
        exact absurd h (by simp)
      · rw [if_neg hsz] at h
        have hinj := Option.some.inj h
        have hA : tcp = tcpA := congrArg Prod.fst hinj
        have hr : hs - 1 - (tcp.tccps.getD 0 default).numStepSizes = r :=
          congrArg Prod.snd hinj
        exact sqcc_second_from_record hdr hs tcpB r
          (tcp.tccps.getD 0 default) h1 hq (by rw [hB, ← hA]) hig1
          (Or.inl ⟨hqn, hsz, hr.symm⟩)
    · rw [if_neg hqn] at h
      by_cases hsz : hs - 1 < 2 * (tcp.tccps.getD 0 default).numStepSizes
      · rw [if_pos hsz] at h
        exact absurd h (by simp)
      · rw [if_neg hsz] at h
        have hinj := Option.some.inj h
        have hA : tcp = tcpA := congrArg Prod.fst hinj
        have hr : hs - 1 - 2 * (tcp.tccps.getD 0 default).numStepSizes = r :=
          congrArg Prod.snd hinj
        exact sqcc_second_from_record hdr hs tcpB r
          (tcp.tccps.getD 0 default) h1 hq (by rw [hB, ← hA]) hig1
          (Or.inr ⟨hqn, hsz, hr.symm⟩)
  · -- run 1 applied the marker: component 0 is now bound by main-QCD
    have hig1' : sqccIgnore (tcp.tccps.getD 0 default) false false = false :=
      Bool.eq_false_iff.mpr hig1
    unfold read_SQcd_SQcc at h
    rw [if_neg h1] at h
    simp only [] at h
    rw [if_neg hq, hig1'] at h
    simp only [Bool.false_eq_true, if_false, Bool.not_false, Bool.true_and,
      eq_self_iff_true, if_true] at h
    by_cases hqn : byteAt hdr 0 % 32 = J2K_CCP_QNTSTY_NOQNT
    · rw [if_pos hqn, hqn] at h
      simp only [show (J2K_CCP_QNTSTY_NOQNT == J2K_CCP_QNTSTY_SIQNT) = false
        from by decide, Bool.false_eq_true, if_false] at h
      by_cases hsz : hs - 1 < sqccNumStepSizes J2K_CCP_QNTSTY_NOQNT (hs - 1)
      · rw [if_pos hsz] at h
        exact absurd h (by simp)
      · rw [if_neg hsz] at h
        have hinj := Option.some.inj h
        obtain ⟨hA, hr⟩ := Prod.mk.inj hinj
        have hA0 : tcpA.tccps.getD 0 default =
            { qntsty := J2K_CCP_QNTSTY_NOQNT
              numgbits := byteAt hdr 0 / 32
              numStepSizes := sqccNumStepSizes J2K_CCP_QNTSTY_NOQNT (hs - 1)
              stepsizes := sqccReadStepsNoqnt hdr
                (sqccNumStepSizes J2K_CCP_QNTSTY_NOQNT (hs - 1))
                (tcp.tccps.getD 0 default).stepsizes
              numresolutions := (tcp.tccps.getD 0 default).numresolutions
              qmfbid := (tcp.tccps.getD 0 default).qmfbid
              quantizationMarkerSet := true
              fromQCC := false
              fromTileHeader := false } := by
          rw [← hA]
          exact getD_set_self _ _ _ _ hne
        exact sqcc_second_from_record hdr hs tcpB r _ h1 hq
          (hB.trans hA0) (by rfl) (Or.inl ⟨hqn, hsz, hr.symm⟩)
    · rw [if_neg hqn] at h
      by_cases hqs : byteAt hdr 0 % 32 = J2K_CCP_QNTSTY_SIQNT
      · rw [hqs] at h
        simp only [show (J2K_CCP_QNTSTY_SIQNT == J2K_CCP_QNTSTY_SIQNT) = true
          from by decide, if_true] at h
        by_cases hsz : hs - 1 <
            2 * sqccNumStepSizes J2K_CCP_QNTSTY_SIQNT (hs - 1)
        · rw [if_pos hsz] at h
          exact absurd h (by simp)
        · rw [if_neg hsz] at h
          have hinj := Option.some.inj h
          obtain ⟨hA, hr⟩ := Prod.mk.inj hinj
          have hA0 : tcpA.tccps.getD 0 default =
              { qntsty := J2K_CCP_QNTSTY_SIQNT
                numgbits := byteAt hdr 0 / 32
                numStepSizes := sqccNumStepSizes J2K_CCP_QNTSTY_SIQNT (hs - 1)
                stepsizes := sqccDeriveSiqnt (sqccReadStepsQnt hdr
                  (sqccNumStepSizes J2K_CCP_QNTSTY_SIQNT (hs - 1))
                  (tcp.tccps.getD 0 default).stepsizes)
                numresolutions := (tcp.tccps.getD 0 default).numresolutions
                qmfbid := (tcp.tccps.getD 0 default).qmfbid
                quantizationMarkerSet := true
                fromQCC := false
                fromTileHeader := false } := by
            rw [← hA]
            exact getD_set_self _ _ _ _ hne
          exact sqcc_second_from_record hdr hs tcpB r _ h1 hq
            (hB.trans hA0) (by rfl) (Or.inr ⟨hqn, hsz, hr.symm⟩)
      · have hq2 : byteAt hdr 0 % 32 = J2K_CCP_QNTSTY_SEQNT := by
          have ha : ¬ (2 < byteAt hdr 0 % 32) := hq
          have hb : ¬ (byteAt hdr 0 % 32 = 0) := hqn
          have hc : ¬ (byteAt hdr 0 % 32 = 1) := hqs
          show byteAt hdr 0 % 32 = 2
          omega
        rw [hq2] at h
        simp only [show (J2K_CCP_QNTSTY_SEQNT == J2K_CCP_QNTSTY_SIQNT) = false
          from by decide, Bool.false_eq_true, if_false] at h
        by_cases hsz : hs - 1 <
            2 * sqccNumStepSizes J2K_CCP_QNTSTY_SEQNT (hs - 1)
        · rw [if_pos hsz] at h
          exact absurd h (by simp)
        · rw [if_neg hsz] at h
          have hinj := Option.some.inj h
          obtain ⟨hA, hr⟩ := Prod.mk.inj hinj
          have hA0 : tcpA.tccps.getD 0 default =
              { qntsty := J2K_CCP_QNTSTY_SEQNT
                numgbits := byteAt hdr 0 / 32
                numStepSizes := sqccNumStepSizes J2K_CCP_QNTSTY_SEQNT (hs - 1)
                stepsizes := sqccReadStepsQnt hdr
                  (sqccNumStepSizes J2K_CCP_QNTSTY_SEQNT (hs - 1))
                  (tcp.tccps.getD 0 default).stepsizes
                numresolutions := (tcp.tccps.getD 0 default).numresolutions
                qmfbid := (tcp.tccps.getD 0 default).qmfbid
                quantizationMarkerSet := true
                fromQCC := false
                fromTileHeader := false } := by
            rw [← hA]
            exact getD_set_self _ _ _ _ hne
          exact sqcc_second_from_record hdr hs tcpB r _ h1 hq
            (hB.trans hA0) (by rfl) (Or.inr ⟨hqn, hsz, hr.symm⟩)

/-- C4: processing the same main-header QCD marker segment twice
yields exactly the same coding-parameter state as processing it once:
after the first application component 0 is bound by main-QCD (or by a
binding of equal or higher precedence), so the scoping rules make the
second application a no-op — it is ignored for component 0, consumes
the same header bytes, and the propagation loop rewrites the same
values.  (`hne` is the allocation invariant: at least one component
record exists.) -/
theorem read_qcd_idempotent (hdr : List Nat) (hs n : Nat)
    (tcp tcp1 : TileCodingParams)
    (hne : 0 < tcp.tccps.length)
    (h : read_qcd false hdr hs n tcp = some tcp1) :
    read_qcd false hdr hs n tcp1 = some tcp1 := by
  unfold read_qcd at h ⊢
  cases hsq : read_SQcd_SQcc false false 0 hdr hs tcp with
  | none =>
    rw [hsq] at h
    exact absurd h (by simp)
  | some pr =>
    obtain ⟨tcpA, r⟩ := pr
    rw [hsq] at h
    simp only [] at h
    by_cases hr0 : r ≠ 0
    · rw [if_pos hr0] at h
      exact absurd h (by simp)
    · rw [if_neg hr0] at h
      have hA1 : { tcpA with tccps :=
          (qcdPropagate (tcpA.tccps.getD 0 default) tcpA.tccps n) } = tcp1 :=
        Option.some.inj h
      have hB : tcp1.tccps.getD 0 default = tcpA.tccps.getD 0 default := by
        rw [← hA1]
        exact qcdPropagate_getD_zero _ _ _
      have hsq2 : read_SQcd_SQcc false false 0 hdr hs tcp1 = some (tcp1, r) :=
        sqcc_second_run hdr hs tcp tcpA tcp1 r hne hsq hB
      rw [hsq2]
      simp only []
      rw [if_neg hr0]
      have hprop : qcdPropagate (tcpA.tccps.getD 0 default) tcp1.tccps n =
          tcp1.tccps := by
        rw [← hA1]
        exact qcdPropagate_idem _ _ _
      rw [hB, hprop]

theorem read_qcd_idempotent_witness :
    read_qcd false [0x40, 0x08] 2 2
      ⟨0, 0, [default, default]⟩ = some
        ⟨0, 1, [⟨0, 2, 1, [], 0, 0, true, false, false⟩,
                ⟨0, 2, 0, [], 0, 0, false, false, false⟩]⟩ ∧
    read_qcd false [0x40, 0x08] 2 2
      ⟨0, 1, [⟨0, 2, 1, [], 0, 0, true, false, false⟩,
              ⟨0, 2, 0, [], 0, 0, false, false, false⟩]⟩ = some
        ⟨0, 1, [⟨0, 2, 1, [], 0, 0, true, false, false⟩,
                ⟨0, 2, 0, [], 0, 0, false, false, false⟩]⟩ :=
  ⟨by decide,
   read_qcd_idempotent [0x40, 0x08] 2 2 ⟨0, 0, [default, default]⟩ _
     (by decide) (by decide)⟩

end Grk
